import Mathlib

/-!
Verification of the tfwrapper variable-discovery and code-generation pipeline.

The Go program (tfwrapper.go) is shallowly embedded below:

* Go `string` values are Lean `String`; Go byte/rune-level helpers from the
  `strings` package (`Split`, `SplitN`, `Join`, `Trim`, `TrimSpace`,
  `TrimSuffix`, `HasPrefix`, `Contains`) are re-implemented structurally over
  `List Char` so that they both mirror the Go semantics and evaluate inside
  the kernel.
* The HCL parser, which the program uses as an external library, is modelled
  by its observable output: a list of `HBlock` values (block type, single
  label, attribute map, and the 1-based start line of the block's definition
  range).  An attribute's `Expr.Value(nil)` call either succeeds with a
  `CtyValue` or fails, in which case the Go code extracts the expression's
  source span verbatim; `AttrVal` captures exactly those two outcomes.
* Go maps (`map[string]string`) are modelled as association lists with
  overwrite-on-assign (`mapSet`) and first-match lookup (`List.lookup`),
  which is observationally the Go map: one binding per key, latest
  assignment wins.
* `generateMainTf` builds its output with a `strings.Builder`; each
  `WriteString` call is one element of `mainTfChunks`, and the final string
  is their concatenation (`String.join`).
-/

/-- Embedding of Go `strings.TrimSpace`: drop whitespace from both ends. -/
def goTrimSpace (s : String) : String :=
  ⟨((s.data.dropWhile Char.isWhitespace).reverse.dropWhile Char.isWhitespace).reverse⟩

/-- Embedding of Go `strings.HasPrefix s pre`. -/
def goHasPrefix (s pre : String) : Bool :=
  pre.data.isPrefixOf s.data

/-- Embedding of Go `strings.Trim(s, "/")`: drop `/` characters from both ends. -/
def goTrimSlashes (s : String) : String :=
  ⟨((s.data.dropWhile (· = '/')).reverse.dropWhile (· = '/')).reverse⟩

/-- Embedding of Go `strings.TrimSuffix`: remove one trailing occurrence of
`suffix` when present, otherwise return the string unchanged. -/
def goTrimSuffix (s suffix : String) : String :=
  if suffix.data.isSuffixOf s.data then
    ⟨s.data.take (s.data.length - suffix.data.length)⟩
  else s

/-- Split a character list at every occurrence of `c` (Go
`strings.Split` with a one-character separator); always returns at least one
piece. -/
def splitCharList (c : Char) : List Char → List (List Char)
  | [] => [[]]
  | a :: t =>
    let r := splitCharList c t
    if a = c then [] :: r else (a :: r.headD []) :: r.tail

/-- Embedding of Go `strings.Split(s, sep)` for a one-character separator. -/
def goSplitChar (c : Char) (s : String) : List String :=
  (splitCharList c s.data).map (fun l => ⟨l⟩)

/-- Embedding of Go `strings.Split(s, "\n")`. -/
def goSplitNL (s : String) : List String := goSplitChar '\n' s

/-- Join character lists with a newline between consecutive pieces
(the list-level core of Go `strings.Join(xs, "\n")`). -/
def joinNLList : List (List Char) → List Char
  | [] => []
  | [x] => x
  | x :: y :: t => x ++ '\n' :: joinNLList (y :: t)

/-- Embedding of Go `strings.Join(xs, "\n")`. -/
def goJoinNL (l : List String) : String :=
  ⟨joinNLList (l.map String.data)⟩

/-- Scan for an occurrence of `"://"` (Go `strings.Contains(s, "://")` at the
character-list level). -/
def hasSchemeList : List Char → Bool
  | ':' :: '/' :: '/' :: _ => true
  | _ :: t => hasSchemeList t
  | [] => false

/-- Embedding of Go `strings.Contains(moduleSource, "://")`. -/
def strContainsScheme (s : String) : Bool := hasSchemeList s.data

/-- Split a character list at the first occurrence of `"//"`, returning the
part before it and, when the separator occurs, the remainder (Go
`strings.SplitN(source, "//", 2)`). -/
def breakOnSlashSlash : List Char → List Char × Option (List Char)
  | '/' :: '/' :: rest => ([], some rest)
  | a :: rest =>
    let r := breakOnSlashSlash rest
    (a :: r.1, r.2)
  | [] => ([], none)

/-- The part of the raw source before the first `"//"` — Go
`parts[0]` after `strings.SplitN(source, "//", 2)` in `downloadModule`. -/
def moduleSourceOf (source : String) : String :=
  ⟨(breakOnSlashSlash source.data).1⟩

/-- The sub-path after the first `"//"` (empty when there is none) — Go
`subPath` in `downloadModule`. -/
def subPathOf (source : String) : String :=
  match (breakOnSlashSlash source.data).2 with
  | some l => ⟨l⟩
  | none => ""

/-- Embedding of the pure source-resolution prefix of `downloadModule`
(tfwrapper.go lines 111–137): split off a `//` sub-path, then rewrite the
module source into the cloned URL.  Returns `(fetch location, sub-path)`. -/
def resolveModuleSource (source : String) : String × String :=
  let moduleSource := moduleSourceOf source
  let subPath := subPathOf source
  let m :=
    if !strContainsScheme moduleSource && !goHasPrefix moduleSource "github.com/" then
      let sourceParts := goSplitChar '/' moduleSource
      if 3 ≤ sourceParts.length then
        "https://github.com/" ++ sourceParts.getD 0 "" ++ "/terraform-"
          ++ sourceParts.getD 2 "" ++ "-" ++ sourceParts.getD 1 "" ++ ".git"
      else
        "https://github.com/" ++ moduleSource ++ ".git"
    else if goHasPrefix moduleSource "github.com/" then
      "https://" ++ moduleSource ++ ".git"
    else
      moduleSource
  (m, subPath)

/-- Embedding of the wrapper-name computation in `main` (tfwrapper.go lines
30–36): an explicit `-name` wins; otherwise take the last `/`-segment of the
`/`-trimmed source and strip a trailing `.git`. -/
def modNameOf (name source : String) : String :=
  if name ≠ "" then name
  else
    goTrimSuffix ((goSplitChar '/' (goTrimSlashes source)).getLastD "") ".git"

/-- Model of a `cty.Value` as far as `ctyValueToString` observes it: null,
the three primitive kinds, the aggregate kinds it special-cases, and a
catch-all for any other non-primitive type. Numeric values are modelled as
integers (the program renders numbers via `%v` on a `big.Float`, which agrees
with decimal integer notation on the integer defaults in scope here). -/
inductive CtyValue where
  | nullV
  | str (s : String)
  | num (n : Int)
  | boolV (b : Bool)
  | objectV
  | mapV
  | tupleV
  | listV
  | otherV
deriving DecidableEq

/-- Embedding of `ctyValueToString` (tfwrapper.go lines 257–283). -/
def ctyValueToString : CtyValue → String
  | .nullV => "null"
  | .str s => "\"" ++ s ++ "\""
  | .num n => toString n
  | .boolV b => if b then "true" else "false"
  | .objectV => "\x7b\x7d"
  | .mapV => "\x7b\x7d"
  | .tupleV => "[]"
  | .listV => "[]"
  | .otherV => "null"

/-- Outcome of evaluating a `default` attribute's expression with
`Expr.Value(nil)`: either a statically evaluated value, or (when diagnostics
are returned) the verbatim source text of the expression's byte range. -/
inductive AttrVal where
  | lit (v : CtyValue)
  | exprSrc (t : String)
deriving DecidableEq

/-- The string the program derives from a `default` attribute value
(tfwrapper.go lines 201–210). -/
def evalDefaultAttr : AttrVal → String
  | .lit v => ctyValueToString v
  | .exprSrc t => t

/-- Model of one top-level HCL block as returned by
`Body.PartialContent` with the `variable`-block schema: block type, the
single label, the `JustAttributes` map, and the 1-based line on which the
block's definition range starts. -/
structure HBlock where
  btype : String
  label : String
  attrs : List (String × AttrVal)
  startLine : Nat
deriving DecidableEq

/-- Go map read `m[k]` on an association list: first (most recent) binding
wins, `none` when the key is absent. -/
def mapGet {α : Type} (m : List (String × α)) (k : String) : Option α :=
  match m with
  | [] => none
  | (a, v) :: t => if k = a then some v else mapGet t k

/-- The default-value string computed for one block (tfwrapper.go lines
200–213): evaluate the `default` attribute when present, otherwise the
`"null"` sentinel. -/
def defaultValueOf (b : HBlock) : String :=
  match mapGet b.attrs "default" with
  | some a => evalDefaultAttr a
  | none => "null"

/-- Embedding of the walk-upward loop body of `extractCommentAboveVariable`
(tfwrapper.go lines 231–248).  The input list is the lines above the block,
nearest line first; `acc` is the comment block collected so far.  The Go
loop's two sequential prepend checks (comment line / blank line) are mutually
exclusive, so they are rendered as an if/else chain. -/
def collectComments : List String → List String → List String
  | [], acc => acc
  | l :: rest, acc =>
    let line := goTrimSpace l
    if line ≠ "" ∧ goHasPrefix line "#" = false then acc
    else
      let acc1 :=
        if goHasPrefix line "#" = true then line :: acc
        else if line = "" ∧ acc ≠ [] then line :: acc
        else acc
      collectComments rest acc1

/-- Embedding of `extractCommentAboveVariable` (tfwrapper.go lines 227–255):
walk upward from the line above `varStartLine` (0-based), collect the
adjacent comment/blank run, and join it with newlines. -/
def extractCommentAboveVariable (lines : List String) (varStartLine : Nat) : String :=
  let cs := collectComments ((lines.take varStartLine).reverse) []
  if cs.isEmpty then "" else goJoinNL cs

/-- Result of `parseVariables`: the defaults map, the declaration-order name
list, and the comments map. -/
structure PVOut where
  vars : List (String × String)
  varOrder : List String
  varComments : List (String × String)
deriving DecidableEq

/-- Go map assignment `m[k] = v` on an association list: one binding per key,
latest assignment wins. -/
def mapSet (m : List (String × String)) (k v : String) : List (String × String) :=
  (k, v) :: m.filter (fun p => p.1 ≠ k)

/-- One iteration of the block loop in `parseVariables` (tfwrapper.go lines
194–223). -/
def pvStep (lines : List String) (acc : PVOut) (b : HBlock) : PVOut :=
  if b.btype = "variable" then
    let varName := b.label
    let defaultValue := defaultValueOf b
    let comment := extractCommentAboveVariable lines (b.startLine - 1)
    { vars := mapSet acc.vars varName defaultValue
      varOrder := acc.varOrder ++ [varName]
      varComments :=
        if comment ≠ "" then mapSet acc.varComments varName comment
        else acc.varComments }
  else acc

/-- Embedding of `parseVariables` (tfwrapper.go lines 187–224), taking the
parsed block list and the raw source lines (`strings.Split(src, "\n")`). -/
def parseVariables (blocks : List HBlock) (lines : List String) : PVOut :=
  blocks.foldl (pvStep lines) ⟨[], [], []⟩

/-- The header chunk of the generated main.tf (tfwrapper.go lines 289–293). -/
def headerChunk (source version : String) : String :=
  if version ≠ "" then
    "# Module source: " ++ source ++ "\n# Version: " ++ version ++ "\n\n"
  else
    "# Module source: " ++ source ++ "\n# Version: latest (no version constraint specified)\n\n"

/-- The iteration clause written when `iterable` is set (tfwrapper.go line
306), including its trailing blank line. -/
def forEachChunk : String :=
  "  for_each = lookup(local.config, \"instances\", \x7b\x7d)\n\n"

/-- One generated per-variable assignment line (tfwrapper.go line 342). -/
def varLineChunk (configSource n d : String) : String :=
  "  " ++ n ++ " = lookup(" ++ configSource ++ ", \"" ++ n ++ "\", " ++ d ++ ")\n"

/-- The chunks written for one variable's comment block (tfwrapper.go lines
330–340): split on newlines; blank lines become a bare newline, other lines
are re-indented by two spaces. -/
def commentChunks (comment : String) : List String :=
  (goSplitNL comment).map (fun line =>
    if goTrimSpace line = "" then "\n" else "  " ++ line ++ "\n")

/-- The variable names `generateMainTf` iterates over (tfwrapper.go lines
313–323): declaration order when preserved, otherwise the map's keys sorted
alphabetically. -/
def varNamesUsed (vars : List (String × String)) (varOrder : List String) : List String :=
  if 0 < varOrder.length then varOrder
  else ((vars.map Prod.fst).dedup).mergeSort (fun a b => a ≤ b)

/-- All chunks written for one variable: its comment block when recorded,
then its assignment line with the defaulted lookup (tfwrapper.go lines
326–343). -/
def varEntryChunks (configSource : String) (vars varComments : List (String × String))
    (n : String) : List String :=
  (match mapGet varComments n with
   | some c => commentChunks c
   | none => []) ++ [varLineChunk configSource n ((mapGet vars n).getD "")]

/-- The successive `WriteString` arguments of `generateMainTf`
(tfwrapper.go lines 285–347), in order. -/
def mainTfChunks (source version : String) (iterable : Bool)
    (vars : List (String × String)) (varOrder : List String)
    (varComments : List (String × String)) : List String :=
  let configSource := if iterable then "each.value" else "local.config"
  [headerChunk source version,
   "module \"this\" \x7b\n",
   "  source = \"" ++ source ++ "\"\n"]
  ++ (if version ≠ "" then ["  version = \"" ++ version ++ "\"\n"] else [])
  ++ ["\n"]
  ++ (if iterable then [forEachChunk] else [])
  ++ (varNamesUsed vars varOrder).flatMap (varEntryChunks configSource vars varComments)
  ++ ["\x7d\n"]

/-- Embedding of `generateMainTf` (tfwrapper.go lines 285–347): the
concatenation of all builder chunks. -/
def generateMainTf (source version : String) (iterable : Bool)
    (vars : List (String × String)) (varOrder : List String)
    (varComments : List (String × String)) : String :=
  String.join (mainTfChunks source version iterable vars varOrder varComments)

/-- Modelled from the spec: a string is a syntactically valid quoted-string
literal of the target declarative language when it is a double-quoted body in
which every `"` or `\` is part of a backslash escape.  The spec's
defaultLiteral contract ("a syntactically valid literal in the target
declarative language") is formalized for string kinds by this recognizer. -/
def specValidStringBody : List Char → Bool
  | ['"'] => true
  | [] => false
  | '"' :: _ :: _ => false
  | '\\' :: c :: rest =>
    (c = 'n' ∨ c = 'r' ∨ c = 't' ∨ c = '"' ∨ c = '\\') ∧ specValidStringBody rest
  | _ :: rest => specValidStringBody rest

/-- Modelled from the spec: validity of a full quoted-string literal. -/
def specValidStringLit (s : String) : Bool :=
  match s.data with
  | '"' :: rest => specValidStringBody rest
  | _ => false

/-! ### Generic string, list and map lemmas -/

theorem strAppend_assoc (a b c : String) : (a ++ b) ++ c = a ++ (b ++ c) :=
  String.ext (by simp [String.data_append, List.append_assoc])

theorem strAppend_empty (a : String) : a ++ "" = a :=
  String.ext (by simp [String.data_append, show ("" : String).data = [] from rfl])

theorem strEmpty_append (a : String) : "" ++ a = a :=
  String.ext (by simp [String.data_append, show ("" : String).data = [] from rfl])

theorem strJoin_foldl_aux : ∀ (l : List String) (s : String),
    l.foldl (· ++ ·) s = s ++ l.foldl (· ++ ·) "" := by
  intro l
  induction l with
  | nil => intro s; simp [List.foldl, strAppend_empty]
  | cons x t ih =>
    intro s
    rw [List.foldl_cons, List.foldl_cons, ih (s ++ x), ih ("" ++ x), strEmpty_append,
      strAppend_assoc]

theorem strJoin_cons (x : String) (l : List String) :
    String.join (x :: l) = x ++ String.join l := by
  show (x :: l).foldl (· ++ ·) "" = x ++ l.foldl (· ++ ·) ""
  rw [List.foldl_cons, strJoin_foldl_aux l ("" ++ x), strEmpty_append]

theorem strJoin_append (l1 l2 : List String) :
    String.join (l1 ++ l2) = String.join l1 ++ String.join l2 := by
  induction l1 with
  | nil =>
    show String.join l2 = String.join [] ++ String.join l2
    rw [show String.join [] = "" from rfl, strEmpty_append]
  | cons x t ih =>
    rw [List.cons_append, strJoin_cons, strJoin_cons, ih, strAppend_assoc]

theorem strJoin_mem_decomp {x : String} {l : List String} (h : x ∈ l) :
    ∃ a b, String.join l = a ++ x ++ b := by
  obtain ⟨s, t, rfl⟩ := List.append_of_mem h
  refine ⟨String.join s, String.join t, ?_⟩
  rw [strJoin_append, strJoin_cons, strAppend_assoc]

theorem mem_of_mapGet_eq_some {α : Type} {k : String} {v : α} :
    ∀ {m : List (String × α)}, mapGet m k = some v → (k, v) ∈ m := by
  intro m
  induction m with
  | nil => intro h; simp [mapGet] at h
  | cons p t ih =>
    intro h
    rcases p with ⟨a, b⟩
    rw [mapGet] at h
    by_cases hk : k = a
    · rw [if_pos hk] at h
      subst hk
      cases h
      exact List.mem_cons_self _ _
    · rw [if_neg hk] at h
      exact List.mem_cons_of_mem _ (ih h)

theorem mapGet_filter_ne (k n : String) (h : n ≠ k) :
    ∀ (m : List (String × String)),
    mapGet (m.filter (fun p => p.1 ≠ k)) n = mapGet m n := by
  intro m
  induction m with
  | nil => rfl
  | cons p t ih =>
    rcases p with ⟨a, b⟩
    rw [List.filter_cons]
    by_cases ha : a = k
    · rw [if_neg (by simpa using ha), ih]
      rw [show mapGet ((a, b) :: t) n = if n = a then some b else mapGet t n from rfl,
        if_neg (fun e => h (e.trans ha))]
    · rw [if_pos (by simpa using ha)]
      rw [show mapGet ((a, b) :: List.filter (fun p => decide (p.1 ≠ k)) t) n
            = if n = a then some b else mapGet (List.filter (fun p => decide (p.1 ≠ k)) t) n
          from rfl,
        show mapGet ((a, b) :: t) n = if n = a then some b else mapGet t n from rfl]
      by_cases hn : n = a
      · rw [if_pos hn, if_pos hn]
      · rw [if_neg hn, if_neg hn]
        exact ih

theorem mapGet_mapSet (m : List (String × String)) (k v n : String) :
    mapGet (mapSet m k v) n = if n = k then some v else mapGet m n := by
  unfold mapSet
  rw [show mapGet ((k, v) :: List.filter (fun p => decide (p.1 ≠ k)) m) n
        = if n = k then some v else mapGet (List.filter (fun p => decide (p.1 ≠ k)) m) n
      from rfl]
  by_cases h : n = k
  · rw [if_pos h, if_pos h]
  · rw [if_neg h, if_neg h, mapGet_filter_ne k n h]

/-! ### Lemmas about parseVariables -/

theorem pvStep_varOrder (lines : List String) (acc : PVOut) (b : HBlock) :
    (pvStep lines acc b).varOrder
      = acc.varOrder ++ (if b.btype = "variable" then [b.label] else []) := by
  unfold pvStep
  by_cases hv : b.btype = "variable" <;> simp [hv]

theorem pvStep_vars (lines : List String) (acc : PVOut) (b : HBlock) :
    (pvStep lines acc b).vars =
      if b.btype = "variable" then mapSet acc.vars b.label (defaultValueOf b)
      else acc.vars := by
  unfold pvStep
  by_cases hv : b.btype = "variable" <;> simp [hv]

theorem pvStep_comments (lines : List String) (acc : PVOut) (b : HBlock) :
    (pvStep lines acc b).varComments =
      if b.btype = "variable" then
        (if extractCommentAboveVariable lines (b.startLine - 1) ≠ ""
         then mapSet acc.varComments b.label (extractCommentAboveVariable lines (b.startLine - 1))
         else acc.varComments)
      else acc.varComments := by
  unfold pvStep
  by_cases hv : b.btype = "variable" <;> simp [hv]

theorem mapGet_pvStep_vars (lines : List String) (acc : PVOut) (b : HBlock) (n : String) :
    mapGet (pvStep lines acc b).vars n =
      if b.btype = "variable" ∧ b.label = n then some (defaultValueOf b)
      else mapGet acc.vars n := by
  rw [pvStep_vars]
  by_cases hv : b.btype = "variable"
  · rw [if_pos hv, mapGet_mapSet]
    by_cases hn : b.label = n
    · rw [if_pos hn.symm, if_pos ⟨hv, hn⟩]
    · rw [if_neg (fun e => hn e.symm), if_neg (fun e => hn e.2)]
  · rw [if_neg hv, if_neg (fun e => hv e.1)]

theorem mapGet_pvStep_comments (lines : List String) (acc : PVOut) (b : HBlock) (n : String) :
    mapGet (pvStep lines acc b).varComments n =
      if b.btype = "variable" ∧ b.label = n
          ∧ extractCommentAboveVariable lines (b.startLine - 1) ≠ ""
      then some (extractCommentAboveVariable lines (b.startLine - 1))
      else mapGet acc.varComments n := by
  rw [pvStep_comments]
  by_cases hv : b.btype = "variable"
  · rw [if_pos hv]
    by_cases hc : extractCommentAboveVariable lines (b.startLine - 1) ≠ ""
    · rw [if_pos hc, mapGet_mapSet]
      by_cases hn : b.label = n
      · rw [if_pos hn.symm, if_pos ⟨hv, hn, hc⟩]
      · rw [if_neg (fun e => hn e.symm), if_neg (fun e => hn e.2.1)]
    · rw [if_neg hc, if_neg (fun e => hc e.2.2)]
  · rw [if_neg hv, if_neg (fun e => hv e.1)]

theorem foldl_pvStep_varOrder (lines : List String) :
    ∀ (blocks : List HBlock) (acc : PVOut),
    (blocks.foldl (pvStep lines) acc).varOrder
      = acc.varOrder ++ (blocks.filter (fun b => b.btype == "variable")).map (fun b => b.label) := by
  intro blocks
  induction blocks with
  | nil => intro acc; simp
  | cons b t ih =>
    intro acc
    rw [List.foldl_cons, ih, pvStep_varOrder]
    by_cases hv : b.btype = "variable" <;>
      simp [hv, List.filter_cons, List.append_assoc]

/-- Projection of `parseVariables`: the declaration-order name list is the
labels of the `variable` blocks in textual order. -/
theorem varOrder_parseVariables (blocks : List HBlock) (lines : List String) :
    (parseVariables blocks lines).varOrder
      = (blocks.filter (fun b => b.btype == "variable")).map (fun b => b.label) := by
  unfold parseVariables
  rw [foldl_pvStep_varOrder]
  rfl

theorem foldl_pvStep_vars_preserve (lines : List String) (n : String) :
    ∀ (L : List HBlock) (acc : PVOut),
    (∀ b ∈ L, b.btype = "variable" → b.label ≠ n) →
    mapGet ((L.foldl (pvStep lines) acc).vars) n = mapGet acc.vars n := by
  intro L
  induction L with
  | nil => intro acc _; rfl
  | cons b t ih =>
    intro acc h
    rw [List.foldl_cons, ih _ (fun b' hb' => h b' (List.mem_cons_of_mem _ hb')),
      mapGet_pvStep_vars]
    rw [if_neg]
    rintro ⟨hv, hl⟩
    exact h b (List.mem_cons_self _ _) hv hl

theorem foldl_pvStep_comments_preserve (lines : List String) (n : String) :
    ∀ (L : List HBlock) (acc : PVOut),
    (∀ b ∈ L, b.btype = "variable" → b.label ≠ n) →
    mapGet ((L.foldl (pvStep lines) acc).varComments) n = mapGet acc.varComments n := by
  intro L
  induction L with
  | nil => intro acc _; rfl
  | cons b t ih =>
    intro acc h
    rw [List.foldl_cons, ih _ (fun b' hb' => h b' (List.mem_cons_of_mem _ hb')),
      mapGet_pvStep_comments]
    rw [if_neg]
    rintro ⟨hv, hl, _⟩
    exact h b (List.mem_cons_self _ _) hv hl

/-- The defaults-map entry of a `variable` block whose label occurs on no
other `variable` block of the file. -/
theorem parseVariables_vars_split (l1 l2 : List HBlock) (b : HBlock) (lines : List String)
    (hv : b.btype = "variable")
    (h2 : ∀ b' ∈ l2, b'.btype = "variable" → b'.label ≠ b.label) :
    mapGet (parseVariables (l1 ++ b :: l2) lines).vars b.label
      = some (defaultValueOf b) := by
  unfold parseVariables
  rw [List.foldl_append, List.foldl_cons, foldl_pvStep_vars_preserve lines _ l2 _ h2,
    mapGet_pvStep_vars, if_pos ⟨hv, rfl⟩]

/-- The comments-map entry of a `variable` block whose label occurs on no
other `variable` block of the file, when a comment was extracted. -/
theorem parseVariables_comments_split (l1 l2 : List HBlock) (b : HBlock) (lines : List String)
    (hv : b.btype = "variable")
    (hcne : extractCommentAboveVariable lines (b.startLine - 1) ≠ "")
    (h2 : ∀ b' ∈ l2, b'.btype = "variable" → b'.label ≠ b.label) :
    mapGet (parseVariables (l1 ++ b :: l2) lines).varComments b.label
      = some (extractCommentAboveVariable lines (b.startLine - 1)) := by
  unfold parseVariables
  rw [List.foldl_append, List.foldl_cons, foldl_pvStep_comments_preserve lines _ l2 _ h2,
    mapGet_pvStep_comments, if_pos ⟨hv, rfl, hcne⟩]

/-! ### Lemmas about the newline split and join -/

theorem splitCharList_ne_nil (c : Char) (l : List Char) : splitCharList c l ≠ [] := by
  cases l with
  | nil => simp [splitCharList]
  | cons a t =>
    unfold splitCharList
    by_cases h : a = c <;> simp [h]

theorem splitCharList_no_occ (c : Char) :
    ∀ (l : List Char), c ∉ l → splitCharList c l = [l] := by
  intro l
  induction l with
  | nil => intro _; rfl
  | cons a t ih =>
    intro h
    have ha : a ≠ c := fun e => h (e ▸ List.mem_cons_self _ _)
    have ht : c ∉ t := fun e => h (List.mem_cons_of_mem _ e)
    unfold splitCharList
    rw [ih ht]
    simp [ha]

theorem splitCharList_append (c : Char) (y : List Char) :
    ∀ (x : List Char), c ∉ x →
    splitCharList c (x ++ c :: y) = x :: splitCharList c y := by
  intro x
  induction x with
  | nil => intro _; simp [splitCharList]
  | cons a t ih =>
    intro h
    have ha : a ≠ c := fun e => h (e ▸ List.mem_cons_self _ _)
    have ht : c ∉ t := fun e => h (List.mem_cons_of_mem _ e)
    rw [List.cons_append]
    rw [show splitCharList c (a :: (t ++ c :: y))
        = if a = c then [] :: splitCharList c (t ++ c :: y)
          else (a :: (splitCharList c (t ++ c :: y)).headD [])
            :: (splitCharList c (t ++ c :: y)).tail
        from rfl]
    rw [if_neg ha, ih ht]
    rfl

theorem goJoinNL_two (c1 c2 : String) : goJoinNL [c1, c2] = c1 ++ "\n" ++ c2 :=
  String.ext (by
    simp [goJoinNL, joinNLList, String.data_append,
      show ("\n" : String).data = ['\n'] from rfl])

theorem goSplitNL_join_two (c1 c2 : String) (h1 : '\n' ∉ c1.data) (h2 : '\n' ∉ c2.data) :
    goSplitNL (goJoinNL [c1, c2]) = [c1, c2] := by
  unfold goSplitNL goSplitChar
  rw [show (goJoinNL [c1, c2]).data = c1.data ++ '\n' :: c2.data from rfl]
  rw [splitCharList_append '\n' c2.data c1.data h1, splitCharList_no_occ '\n' c2.data h2]
  simp

/-! ### Lemmas about comment extraction -/

theorem goHasPrefix_hash_ne_empty {s : String} (h : goHasPrefix s "#" = true) : s ≠ "" := by
  intro e
  subst e
  simp [goHasPrefix, show ("#" : String).data = ['#'] from rfl,
    show ("" : String).data = ([] : List Char) from rfl, List.isPrefixOf] at h

theorem collectComments_cons (l : String) (rest acc : List String) :
    collectComments (l :: rest) acc =
      if goTrimSpace l ≠ "" ∧ goHasPrefix (goTrimSpace l) "#" = false then acc
      else collectComments rest
        (if goHasPrefix (goTrimSpace l) "#" = true then goTrimSpace l :: acc
         else if goTrimSpace l = "" ∧ acc ≠ [] then goTrimSpace l :: acc else acc) := rfl

theorem collectComments_comment_step (l : String) (rest acc : List String)
    (ht : goTrimSpace l = l) (hp : goHasPrefix l "#" = true) :
    collectComments (l :: rest) acc = collectComments rest (l :: acc) := by
  rw [collectComments_cons, ht]
  rw [if_neg (by rw [hp]; rintro ⟨_, h⟩; cases h)]
  rw [if_pos hp]

theorem collectComments_stop (l : String) (rest acc : List String)
    (hne : goTrimSpace l ≠ "") (hp : goHasPrefix (goTrimSpace l) "#" = false) :
    collectComments (l :: rest) acc = acc := by
  rw [collectComments_cons, if_pos ⟨hne, hp⟩]

/-- The collected comment block for a declaration preceded (bottom-up) by the
trimmed comment lines `c2`, `c1`, with the run stopped either by the start of
the file or by a non-blank non-comment line. -/
theorem collectComments_two (c1 c2 : String) (init : List String)
    (h1t : goTrimSpace c1 = c1) (h1p : goHasPrefix c1 "#" = true)
    (h2t : goTrimSpace c2 = c2) (h2p : goHasPrefix c2 "#" = true)
    (hstop : init = [] ∨ ∃ p init0, init = init0 ++ [p] ∧
        goTrimSpace p ≠ "" ∧ goHasPrefix (goTrimSpace p) "#" = false) :
    collectComments ((init ++ [c1, c2]).reverse) [] = [c1, c2] := by
  rw [List.reverse_append, show ([c1, c2].reverse : List String) = [c2, c1] from rfl]
  rw [show ([c2, c1] ++ init.reverse : List String) = c2 :: c1 :: init.reverse from rfl]
  rw [collectComments_comment_step c2 _ _ h2t h2p,
    collectComments_comment_step c1 _ _ h1t h1p]
  rcases hstop with rfl | ⟨p, init0, rfl, hne, hp⟩
  · rfl
  · rw [List.reverse_append, show ([p].reverse : List String) = [p] from rfl,
      List.singleton_append]
    exact collectComments_stop p _ _ hne hp

/-- Comment extraction for a block at 1-based line `L` whose two immediately
preceding lines are trimmed comment lines, with the run stopped above them. -/
theorem extractComment_two (lines init : List String) (pos : Nat) (c1 c2 : String)
    (htake : lines.take pos = init ++ [c1, c2])
    (h1t : goTrimSpace c1 = c1) (h1p : goHasPrefix c1 "#" = true)
    (h2t : goTrimSpace c2 = c2) (h2p : goHasPrefix c2 "#" = true)
    (hstop : init = [] ∨ ∃ p init0, init = init0 ++ [p] ∧
        goTrimSpace p ≠ "" ∧ goHasPrefix (goTrimSpace p) "#" = false) :
    extractCommentAboveVariable lines pos = c1 ++ "\n" ++ c2 := by
  unfold extractCommentAboveVariable
  rw [htake, collectComments_two c1 c2 init h1t h1p h2t h2p hstop]
  rw [if_neg (by simp)]
  exact goJoinNL_two c1 c2

/-! ### Lemmas about the generated chunks -/

theorem ne_of_take_ne (a b : String) (k : Nat) (h : a.data.take k ≠ b.data.take k) :
    a ≠ b :=
  fun e => h (by rw [e])

theorem ne_of_rtake_ne (a b : String) (k : Nat)
    (h : a.data.reverse.take k ≠ b.data.reverse.take k) : a ≠ b :=
  fun e => h (by rw [e])

theorem take_data_append (a b : String) (k : Nat) (hk : k ≤ a.data.length) :
    (a ++ b).data.take k = a.data.take k := by
  rw [String.data_append, List.take_append_of_le_length hk]

theorem rtake_data_append (a b : String) (k : Nat) (hk : k ≤ b.data.length) :
    (a ++ b).data.reverse.take k = b.data.reverse.take k := by
  rw [String.data_append, List.reverse_append,
    List.take_append_of_le_length (by simpa using hk)]

theorem le_len_append_left (a b : String) (k : Nat) (h : k ≤ a.data.length) :
    k ≤ (a ++ b).data.length := by
  rw [String.data_append, List.length_append]
  omega

theorem headerChunk_ne_forEach (s v : String) : headerChunk s v ≠ forEachChunk := by
  apply ne_of_take_ne _ _ 1
  unfold headerChunk
  by_cases hv : v ≠ ""
  · rw [if_pos hv,
      take_data_append _ _ 1 (le_len_append_left _ _ 1 (le_len_append_left _ _ 1
        (le_len_append_left _ _ 1 (by decide)))),
      take_data_append _ _ 1 (le_len_append_left _ _ 1 (le_len_append_left _ _ 1 (by decide))),
      take_data_append _ _ 1 (le_len_append_left _ _ 1 (by decide)),
      take_data_append _ _ 1 (by decide)]
    decide
  · rw [if_neg hv,
      take_data_append _ _ 1 (le_len_append_left _ _ 1 (by decide)),
      take_data_append _ _ 1 (by decide)]
    decide

theorem srcLine_ne_forEach (s : String) : "  source = \"" ++ s ++ "\"\n" ≠ forEachChunk := by
  apply ne_of_take_ne _ _ 3
  rw [take_data_append _ _ 3 (le_len_append_left _ _ 3 (by decide)),
    take_data_append _ _ 3 (by decide)]
  decide

theorem verLine_ne_forEach (s : String) : "  version = \"" ++ s ++ "\"\n" ≠ forEachChunk := by
  apply ne_of_take_ne _ _ 3
  rw [take_data_append _ _ 3 (le_len_append_left _ _ 3 (by decide)),
    take_data_append _ _ 3 (by decide)]
  decide

theorem varLineChunk_ne_forEach (cfg n d : String) : varLineChunk cfg n d ≠ forEachChunk := by
  apply ne_of_rtake_ne _ _ 2
  unfold varLineChunk
  rw [rtake_data_append _ _ 2 (by decide)]
  decide

/-- The middle of the iteration-clause chunk, used to analyse comment lines. -/
def feMid : String := "for_each = lookup(local.config, \"instances\", \x7b\x7d)\n"

theorem forEach_decomp : forEachChunk = "  " ++ feMid ++ "\n" := by decide

theorem commentLine_ne_forEach (l : String) (hl : '\n' ∉ l.data) :
    "  " ++ l ++ "\n" ≠ forEachChunk := by
  intro h
  rw [forEach_decomp] at h
  have hd := congrArg String.data h
  rw [String.data_append, String.data_append, String.data_append, String.data_append,
    show ("\n" : String).data = ['\n'] from rfl, List.append_assoc, List.append_assoc] at hd
  have h' : l.data ++ ['\n'] = feMid.data ++ ['\n'] := List.append_cancel_left hd
  have h2 : l.data = feMid.data := (List.append_inj' h' rfl).1
  exact hl (h2 ▸ (by decide : '\n' ∈ feMid.data))

theorem forEach_not_mem_varEntry (cfg : String) (vars comms : List (String × String))
    (n : String) (hc : ∀ p ∈ comms, ∀ l ∈ goSplitNL p.2, '\n' ∉ l.data) :
    forEachChunk ∉ varEntryChunks cfg vars comms n := by
  intro hmem
  unfold varEntryChunks at hmem
  rcases List.mem_append.1 hmem with hmem | hmem
  · rcases hcase : mapGet comms n with _ | c
    · rw [hcase] at hmem; cases hmem
    · rw [hcase] at hmem
      unfold commentChunks at hmem
      rcases List.mem_map.1 hmem with ⟨l, hl, he⟩
      by_cases hbl : goTrimSpace l = ""
      · rw [if_pos hbl] at he
        exact absurd he (by decide)
      · rw [if_neg hbl] at he
        exact commentLine_ne_forEach l (hc (n, c) (mem_of_mapGet_eq_some hcase) l hl) he
  · rw [List.mem_singleton] at hmem
    exact varLineChunk_ne_forEach cfg n _ hmem.symm

/-- With `iterable` false the generator never writes the iteration clause:
no chunk of the output equals it. -/
theorem forEach_not_mem_chunks (src ver : String) (vars comms : List (String × String))
    (order : List String)
    (hc : ∀ p ∈ comms, ∀ l ∈ goSplitNL p.2, '\n' ∉ l.data) :
    forEachChunk ∉ mainTfChunks src ver false vars order comms := by
  intro hmem
  unfold mainTfChunks at hmem
  rw [show (if (false : Bool) then [forEachChunk] else []) = ([] : List String) from rfl,
    show (if (false : Bool) then "each.value" else "local.config") = "local.config" from rfl]
    at hmem
  rcases List.mem_append.1 hmem with h | h
  swap
  · rw [List.mem_singleton] at h
    exact absurd h (by decide)
  rcases List.mem_append.1 h with h | h
  swap
  · rcases List.mem_flatMap.1 h with ⟨n, hn, hentry⟩
    exact forEach_not_mem_varEntry "local.config" vars comms n hc hentry
  rcases List.mem_append.1 h with h | h
  swap
  · cases h
  rcases List.mem_append.1 h with h | h
  swap
  · rw [List.mem_singleton] at h
    exact absurd h (by decide)
  rcases List.mem_append.1 h with h | h
  swap
  · by_cases hv : ver ≠ ""
    · rw [if_pos hv, List.mem_singleton] at h
      exact verLine_ne_forEach ver h.symm
    · rw [if_neg hv] at h
      cases h
  simp only [List.mem_cons, List.not_mem_nil, or_false] at h
  rcases h with h | h | h
  · exact headerChunk_ne_forEach src ver h.symm
  · exact absurd h (by decide)
  · exact srcLine_ne_forEach src h.symm

/-- Any chunk of a variable entry appears among the output chunks. -/
theorem mem_chunks_of_entry {x : String} (src ver : String) (iterable : Bool)
    (vars comms : List (String × String)) (order : List String) {n : String}
    (hn : n ∈ varNamesUsed vars order)
    (hx : x ∈ varEntryChunks (if iterable then "each.value" else "local.config")
        vars comms n) :
    x ∈ mainTfChunks src ver iterable vars order comms := by
  unfold mainTfChunks
  refine List.mem_append.2 (Or.inl (List.mem_append.2 (Or.inr ?_)))
  exact List.mem_flatMap.2 ⟨n, hn, hx⟩

theorem varLine_mem_entry (cfg : String) (vars comms : List (String × String)) (n : String) :
    varLineChunk cfg n ((mapGet vars n).getD "") ∈ varEntryChunks cfg vars comms n := by
  unfold varEntryChunks
  exact List.mem_append.2 (Or.inr (List.mem_singleton.2 rfl))

theorem forEach_mem_chunks (src ver : String) (vars comms : List (String × String))
    (order : List String) :
    forEachChunk ∈ mainTfChunks src ver true vars order comms := by
  unfold mainTfChunks
  refine List.mem_append.2 (Or.inl (List.mem_append.2 (Or.inl
    (List.mem_append.2 (Or.inr ?_)))))
  rw [show (if (true : Bool) then [forEachChunk] else []) = [forEachChunk] from rfl]
  exact List.mem_singleton.2 rfl

/-- A chunk of the output yields a decomposition of the generated text. -/
theorem generateMainTf_decomp {x : String} {src ver : String} {iterable : Bool}
    {vars comms : List (String × String)} {order : List String}
    (h : x ∈ mainTfChunks src ver iterable vars order comms) :
    ∃ a b, generateMainTf src ver iterable vars order comms = a ++ x ++ b := by
  unfold generateMainTf
  exact strJoin_mem_decomp h

/-- When the name list splits around `n`, the output chunks split contiguously
around `n`'s entry chunks. -/
theorem chunks_entry_decomp (src ver : String) (iterable : Bool)
    (vars comms : List (String × String)) (order : List String)
    (o1 o2 : List String) (n : String)
    (hnames : varNamesUsed vars order = o1 ++ n :: o2) :
    ∃ chs1 chs2, mainTfChunks src ver iterable vars order comms
      = chs1 ++ varEntryChunks (if iterable then "each.value" else "local.config")
          vars comms n ++ chs2 := by
  refine ⟨[headerChunk src ver, "module \"this\" \x7b\n", "  source = \"" ++ src ++ "\"\n"]
      ++ (if ver ≠ "" then ["  version = \"" ++ ver ++ "\"\n"] else [])
      ++ ["\n"]
      ++ (if iterable then [forEachChunk] else [])
      ++ o1.flatMap (varEntryChunks (if iterable then "each.value" else "local.config")
          vars comms),
    o2.flatMap (varEntryChunks (if iterable then "each.value" else "local.config")
        vars comms) ++ ["\x7d\n"], ?_⟩
  unfold mainTfChunks
  rw [hnames]
  simp [List.flatMap_append, List.append_assoc]

theorem strJoin_three (x y z : String) : String.join [x, y, z] = x ++ (y ++ z) := by
  rw [strJoin_cons, strJoin_cons, strJoin_cons,
    show String.join [] = "" from rfl, strAppend_empty]

/-! ### Claims -/

/-- C1 counterexample: for source `terraform-aws-modules/vpc/aws` with no
explicit name, the code derives the directory name `aws` — the last path
segment — and not `vpc` as the claim's example states. -/
theorem c1_counterexample :
    modNameOf "" "terraform-aws-modules/vpc/aws" = "aws"
      ∧ modNameOf "" "terraform-aws-modules/vpc/aws" ≠ "vpc" := by
  exact ⟨by decide, by decide⟩

/-- C1 (amended): when no explicit wrapper name is given, the output
directory name defaults to the last path segment of the source reference
(after trimming slashes and a trailing `.git`), so for
`terraform-aws-modules/vpc/aws` it is `aws`; when an explicit name is given,
the output directory is that name regardless of the source reference. -/
theorem c1_theorem (nm src : String) (h : nm ≠ "") :
    modNameOf nm src = nm
      ∧ modNameOf "" "terraform-aws-modules/vpc/aws" = "aws" := by
  constructor
  · unfold modNameOf
    rw [if_pos h]
  · decide

theorem c1_witness :
    ("mynet" : String) ≠ ""
      ∧ (modNameOf "mynet" "terraform-aws-modules/vpc/aws" = "mynet"
        ∧ modNameOf "" "terraform-aws-modules/vpc/aws" = "aws") :=
  ⟨by decide, c1_theorem "mynet" "terraform-aws-modules/vpc/aws" (by decide)⟩

/-- C2: the code does not use a scheme-qualified reference unmodified.
`strings.SplitN(source, "//", 2)` splits at the scheme's own `//`, so the
later `strings.Contains(moduleSource, "://")` identity check can never fire:
for `https://example.com/org/repo.git` the code rewrites the fetch location
to `https://github.com/https:.git` and treats `example.com/org/repo.git` as
a submodule sub-path. -/
theorem c2_theorem :
    resolveModuleSource "https://example.com/org/repo.git"
        = ("https://github.com/https:.git", "example.com/org/repo.git")
      ∧ strContainsScheme "https://example.com/org/repo.git" = true
      ∧ (resolveModuleSource "https://example.com/org/repo.git").1
          ≠ "https://example.com/org/repo.git" := by
  exact ⟨by decide, by decide, by decide⟩

/-- C3: for every parsed file, the extracted VariableSet lists exactly the
`variable` blocks in textual order: the name list equals the labels of the
variable blocks in order of appearance, its length is the number of variable
blocks, and the ordinal-`i` entry is the label of the `i`-th variable block
(so ordinals are exactly `0..N-1` in textual order, independent of
alphabetical order). -/
theorem c3_theorem (blocks : List HBlock) (lines : List String) :
    (parseVariables blocks lines).varOrder
        = (blocks.filter (fun b => b.btype == "variable")).map (fun b => b.label)
      ∧ (parseVariables blocks lines).varOrder.length
        = (blocks.filter (fun b => b.btype == "variable")).length
      ∧ ∀ i : Nat, (parseVariables blocks lines).varOrder.getD i ""
        = ((blocks.filter (fun b => b.btype == "variable")).map (fun b => b.label)).getD i "" := by
  refine ⟨varOrder_parseVariables blocks lines, ?_, ?_⟩
  · rw [varOrder_parseVariables]
    exact List.length_map _ _
  · intro i
    rw [varOrder_parseVariables]

/-- C4: re-serialization of string defaults is not always a syntactically
valid literal: the code wraps the evaluated string in quotes without
escaping, so the string value `a"b` yields `"a"b"`, which the target
language's quoted-string grammar rejects (while an escape-free string is
re-serialized validly). -/
theorem c4_theorem :
    ctyValueToString (CtyValue.str "a\"b") = "\"a\"b\""
      ∧ specValidStringLit (ctyValueToString (CtyValue.str "a\"b")) = false
      ∧ specValidStringLit (ctyValueToString (CtyValue.str "ab")) = true := by
  exact ⟨by decide, by decide, by decide⟩

/-- C7: a reference with no transport scheme and no `github.com/` host whose
module part (before any `//` sub-path) splits into exactly three `/`-segments
`org/name/provider` resolves to the canonical URL
`https://github.com/org/terraform-provider-name.git`. -/
theorem c7_theorem (source : String)
    (h1 : strContainsScheme (moduleSourceOf source) = false)
    (h2 : goHasPrefix (moduleSourceOf source) "github.com/" = false)
    (h3 : (goSplitChar '/' (moduleSourceOf source)).length = 3) :
    (resolveModuleSource source).1 =
      "https://github.com/" ++ (goSplitChar '/' (moduleSourceOf source)).getD 0 ""
        ++ "/terraform-" ++ (goSplitChar '/' (moduleSourceOf source)).getD 2 ""
        ++ "-" ++ (goSplitChar '/' (moduleSourceOf source)).getD 1 "" ++ ".git" := by
  simp [resolveModuleSource, h1, h2, h3]

theorem c7_witness :
    strContainsScheme (moduleSourceOf "terraform-aws-modules/vpc/aws") = false
      ∧ goHasPrefix (moduleSourceOf "terraform-aws-modules/vpc/aws") "github.com/" = false
      ∧ (goSplitChar '/' (moduleSourceOf "terraform-aws-modules/vpc/aws")).length = 3
      ∧ (resolveModuleSource "terraform-aws-modules/vpc/aws").1 =
          "https://github.com/"
            ++ (goSplitChar '/' (moduleSourceOf "terraform-aws-modules/vpc/aws")).getD 0 ""
            ++ "/terraform-"
            ++ (goSplitChar '/' (moduleSourceOf "terraform-aws-modules/vpc/aws")).getD 2 ""
            ++ "-"
            ++ (goSplitChar '/' (moduleSourceOf "terraform-aws-modules/vpc/aws")).getD 1 ""
            ++ ".git" :=
  ⟨by decide, by decide, by decide,
    c7_theorem "terraform-aws-modules/vpc/aws" (by decide) (by decide) (by decide)⟩

/-- C9 counterexample: a file with two `variable` blocks carrying the same
label yields a VariableSet whose names are not pairwise distinct. -/
theorem c9_counterexample :
    ¬ (parseVariables [⟨"variable", "a", [], 1⟩, ⟨"variable", "a", [], 2⟩] []).varOrder.Nodup := by
  decide

/-- C9 (amended): the extracted names are pairwise distinct whenever the
`variable`-block labels of the input file are pairwise distinct; a file with
two blocks carrying the same label produces a duplicated name instead. -/
theorem c9_theorem (blocks : List HBlock) (lines : List String)
    (h : (((blocks.filter (fun b => b.btype == "variable")).map (fun b => b.label)).Nodup)) :
    (parseVariables blocks lines).varOrder.Nodup := by
  rw [varOrder_parseVariables]
  exact h

theorem c9_witness :
    ((([⟨"variable", "a", [], 1⟩, ⟨"variable", "b", [], 2⟩] : List HBlock).filter
        (fun b => b.btype == "variable")).map (fun b => b.label)).Nodup
      ∧ (parseVariables [⟨"variable", "a", [], 1⟩, ⟨"variable", "b", [], 2⟩] []).varOrder.Nodup :=
  ⟨by decide, c9_theorem _ _ (by decide)⟩

/-- C10: a variable whose `default` attribute evaluates to the explicit
literal `null` and a variable with no `default` attribute at all receive the
identical defaultLiteral string `"null"`, so the generated lookup fallback
cannot distinguish the two. -/
theorem c10_theorem (blocks : List HBlock) (lines : List String)
    (l1 l2 m1 m2 : List HBlock) (b1 b2 : HBlock)
    (hs1 : blocks = l1 ++ b1 :: l2) (hs2 : blocks = m1 ++ b2 :: m2)
    (hv1 : b1.btype = "variable") (hv2 : b2.btype = "variable")
    (hd1 : mapGet b1.attrs "default" = some (AttrVal.lit CtyValue.nullV))
    (hd2 : mapGet b2.attrs "default" = none)
    (hu1 : ∀ b' ∈ l2, b'.btype = "variable" → b'.label ≠ b1.label)
    (hu2 : ∀ b' ∈ m2, b'.btype = "variable" → b'.label ≠ b2.label) :
    mapGet (parseVariables blocks lines).vars b1.label = some "null"
      ∧ mapGet (parseVariables blocks lines).vars b2.label = some "null" := by
  constructor
  · rw [hs1, parseVariables_vars_split l1 l2 b1 lines hv1 hu1]
    unfold defaultValueOf
    rw [hd1]
    rfl
  · rw [hs2, parseVariables_vars_split m1 m2 b2 lines hv2 hu2]
    unfold defaultValueOf
    rw [hd2]

theorem c10_witness :
    ([⟨"variable", "x", [("default", AttrVal.lit CtyValue.nullV)], 1⟩,
        ⟨"variable", "y", [], 2⟩] : List HBlock)
        = [] ++ (⟨"variable", "x", [("default", AttrVal.lit CtyValue.nullV)], 1⟩ : HBlock)
          :: [⟨"variable", "y", [], 2⟩]
      ∧ ([⟨"variable", "x", [("default", AttrVal.lit CtyValue.nullV)], 1⟩,
          ⟨"variable", "y", [], 2⟩] : List HBlock)
        = [⟨"variable", "x", [("default", AttrVal.lit CtyValue.nullV)], 1⟩]
          ++ (⟨"variable", "y", [], 2⟩ : HBlock) :: []
      ∧ mapGet (parseVariables [⟨"variable", "x", [("default", AttrVal.lit CtyValue.nullV)], 1⟩,
          ⟨"variable", "y", [], 2⟩] []).vars "x" = some "null"
      ∧ mapGet (parseVariables [⟨"variable", "x", [("default", AttrVal.lit CtyValue.nullV)], 1⟩,
          ⟨"variable", "y", [], 2⟩] []).vars "y" = some "null" := by
  refine ⟨rfl, rfl, ?_⟩
  exact c10_theorem _ [] [] [⟨"variable", "y", [], 2⟩]
    [⟨"variable", "x", [("default", AttrVal.lit CtyValue.nullV)], 1⟩] []
    ⟨"variable", "x", [("default", AttrVal.lit CtyValue.nullV)], 1⟩
    ⟨"variable", "y", [], 2⟩ rfl rfl rfl rfl (by decide) (by decide)
    (by intro b' hb'; simp at hb'; subst hb'; intro _; decide)
    (by intro b' hb'; simp at hb')

/-- C8: a `variable` block with no `default` attribute is recorded with the
`"null"` sentinel as its fallback literal, and the generated entry point
assigns that variable via a lookup whose fallback is that sentinel. -/
theorem c8_theorem (l1 l2 : List HBlock) (b : HBlock) (lines : List String)
    (src ver : String) (it : Bool)
    (hv : b.btype = "variable")
    (hd : mapGet b.attrs "default" = none)
    (h2 : ∀ b' ∈ l2, b'.btype = "variable" → b'.label ≠ b.label) :
    mapGet (parseVariables (l1 ++ b :: l2) lines).vars b.label = some "null"
      ∧ varLineChunk (if it then "each.value" else "local.config") b.label "null"
          ∈ mainTfChunks src ver it (parseVariables (l1 ++ b :: l2) lines).vars
              (parseVariables (l1 ++ b :: l2) lines).varOrder
              (parseVariables (l1 ++ b :: l2) lines).varComments
      ∧ ∃ a a', generateMainTf src ver it (parseVariables (l1 ++ b :: l2) lines).vars
              (parseVariables (l1 ++ b :: l2) lines).varOrder
              (parseVariables (l1 ++ b :: l2) lines).varComments
          = a ++ varLineChunk (if it then "each.value" else "local.config") b.label "null"
              ++ a' := by
  have hdv : defaultValueOf b = "null" := by
    unfold defaultValueOf
    rw [hd]
  have hvars : mapGet (parseVariables (l1 ++ b :: l2) lines).vars b.label = some "null" := by
    rw [parseVariables_vars_split l1 l2 b lines hv h2, hdv]
  have hordmem : b.label ∈ (parseVariables (l1 ++ b :: l2) lines).varOrder := by
    rw [varOrder_parseVariables]
    refine List.mem_map.2 ⟨b, ?_, rfl⟩
    exact List.mem_filter.2
      ⟨List.mem_append.2 (Or.inr (List.mem_cons_self _ _)), by simpa using hv⟩
  have hnames : b.label ∈ varNamesUsed (parseVariables (l1 ++ b :: l2) lines).vars
      (parseVariables (l1 ++ b :: l2) lines).varOrder := by
    unfold varNamesUsed
    rw [if_pos (List.length_pos.2 (List.ne_nil_of_mem hordmem))]
    exact hordmem
  have hentry := varLine_mem_entry (if it then "each.value" else "local.config")
    (parseVariables (l1 ++ b :: l2) lines).vars
    (parseVariables (l1 ++ b :: l2) lines).varComments b.label
  rw [hvars] at hentry
  have hmem := mem_chunks_of_entry src ver it _ _ _ hnames hentry
  exact ⟨hvars, hmem, generateMainTf_decomp hmem⟩

theorem c8_witness :
    (⟨"variable", "x", [], 1⟩ : HBlock).btype = "variable"
      ∧ mapGet (⟨"variable", "x", [], 1⟩ : HBlock).attrs "default" = none
      ∧ (∀ b' ∈ ([] : List HBlock), b'.btype = "variable"
          → b'.label ≠ (⟨"variable", "x", [], 1⟩ : HBlock).label)
      ∧ (mapGet (parseVariables ([] ++ (⟨"variable", "x", [], 1⟩ : HBlock) :: []) []).vars
            (⟨"variable", "x", [], 1⟩ : HBlock).label = some "null"
        ∧ varLineChunk (if false then "each.value" else "local.config")
              (⟨"variable", "x", [], 1⟩ : HBlock).label "null"
            ∈ mainTfChunks "s" "" false
                (parseVariables ([] ++ (⟨"variable", "x", [], 1⟩ : HBlock) :: []) []).vars
                (parseVariables ([] ++ (⟨"variable", "x", [], 1⟩ : HBlock) :: []) []).varOrder
                (parseVariables ([] ++ (⟨"variable", "x", [], 1⟩ : HBlock) :: []) []).varComments
        ∧ ∃ a a', generateMainTf "s" "" false
                (parseVariables ([] ++ (⟨"variable", "x", [], 1⟩ : HBlock) :: []) []).vars
                (parseVariables ([] ++ (⟨"variable", "x", [], 1⟩ : HBlock) :: []) []).varOrder
                (parseVariables ([] ++ (⟨"variable", "x", [], 1⟩ : HBlock) :: []) []).varComments
            = a ++ varLineChunk (if false then "each.value" else "local.config")
                (⟨"variable", "x", [], 1⟩ : HBlock).label "null" ++ a') :=
  ⟨by decide, by decide, by intro b' hb'; simp at hb',
    c8_theorem [] [] ⟨"variable", "x", [], 1⟩ [] "s" "" false (by decide) (by decide)
      (by intro b' hb'; simp at hb')⟩

/-- C6: with `iterable` true the generated entry point contains the
iteration clause `for_each = lookup(local.config, "instances", {})` (an
empty-collection fallback on the `instances` sub-collection) and every
per-variable assignment is a defaulted lookup of the variable's name on the
iteration element `each.value`; with `iterable` false no chunk of the output
is the iteration clause and every per-variable assignment is a defaulted
lookup of the variable's name on the whole decoded configuration
`local.config`, with the variable's recorded default literal as fallback.
The comment hypothesis states that stored comment blocks consist of
newline-free lines, as produced by the extractor. -/
theorem c6_theorem (src ver : String) (vars comms : List (String × String))
    (order : List String)
    (hc : ∀ p ∈ comms, ∀ l ∈ goSplitNL p.2, '\n' ∉ l.data) :
    (forEachChunk ∈ mainTfChunks src ver true vars order comms
      ∧ (∃ a b, generateMainTf src ver true vars order comms = a ++ forEachChunk ++ b)
      ∧ ∀ n ∈ varNamesUsed vars order,
          varLineChunk "each.value" n ((mapGet vars n).getD "")
            ∈ mainTfChunks src ver true vars order comms)
    ∧ (forEachChunk ∉ mainTfChunks src ver false vars order comms
      ∧ ∀ n ∈ varNamesUsed vars order,
          varLineChunk "local.config" n ((mapGet vars n).getD "")
              ∈ mainTfChunks src ver false vars order comms
            ∧ ∃ a b, generateMainTf src ver false vars order comms
                = a ++ varLineChunk "local.config" n ((mapGet vars n).getD "") ++ b) := by
  refine ⟨⟨forEach_mem_chunks src ver vars comms order,
      generateMainTf_decomp (forEach_mem_chunks src ver vars comms order), ?_⟩,
    forEach_not_mem_chunks src ver vars comms order hc, ?_⟩
  · intro n hn
    exact mem_chunks_of_entry src ver true vars comms order hn
      (varLine_mem_entry "each.value" vars comms n)
  · intro n hn
    have hm := mem_chunks_of_entry src ver false vars comms order hn
      (varLine_mem_entry "local.config" vars comms n)
    exact ⟨hm, generateMainTf_decomp hm⟩

theorem c6_witness :
    (∀ p ∈ ([("n", "# c")] : List (String × String)), ∀ l ∈ goSplitNL p.2, '\n' ∉ l.data)
      ∧ ((forEachChunk ∈ mainTfChunks "src" "" true [("n", "5")] ["n"] [("n", "# c")]
        ∧ (∃ a b, generateMainTf "src" "" true [("n", "5")] ["n"] [("n", "# c")]
            = a ++ forEachChunk ++ b)
        ∧ ∀ n ∈ varNamesUsed [("n", "5")] ["n"],
            varLineChunk "each.value" n ((mapGet [("n", "5")] n).getD "")
              ∈ mainTfChunks "src" "" true [("n", "5")] ["n"] [("n", "# c")])
      ∧ (forEachChunk ∉ mainTfChunks "src" "" false [("n", "5")] ["n"] [("n", "# c")]
        ∧ ∀ n ∈ varNamesUsed [("n", "5")] ["n"],
            varLineChunk "local.config" n ((mapGet [("n", "5")] n).getD "")
                ∈ mainTfChunks "src" "" false [("n", "5")] ["n"] [("n", "# c")]
              ∧ ∃ a b, generateMainTf "src" "" false [("n", "5")] ["n"] [("n", "# c")]
                  = a ++ varLineChunk "local.config" n ((mapGet [("n", "5")] n).getD "")
                    ++ b)) :=
  ⟨by decide, c6_theorem "src" "" [("n", "5")] [("n", "# c")] ["n"] (by decide)⟩

/-- The chunks of a variable entry whose recorded comment block is the two
newline-free nonblank lines `c1`, `c2`. -/
theorem varEntry_comment_eq (cfg : String) (vars comms : List (String × String))
    (n c1 c2 d : String)
    (hcm : mapGet comms n = some (c1 ++ "\n" ++ c2))
    (hdv : mapGet vars n = some d)
    (h1n : '\n' ∉ c1.data) (h2n : '\n' ∉ c2.data)
    (h1ne : goTrimSpace c1 ≠ "") (h2ne : goTrimSpace c2 ≠ "") :
    varEntryChunks cfg vars comms n
      = ["  " ++ c1 ++ "\n", "  " ++ c2 ++ "\n", varLineChunk cfg n d] := by
  unfold varEntryChunks
  rw [hcm, hdv]
  show commentChunks (c1 ++ "\n" ++ c2) ++ [varLineChunk cfg n d] = _
  unfold commentChunks
  rw [show goSplitNL (c1 ++ "\n" ++ c2) = [c1, c2] from by
    rw [← goJoinNL_two]
    exact goSplitNL_join_two c1 c2 h1n h2n]
  simp [h1ne, h2ne]

/-- C5: a variable block immediately preceded (no blank line between) by a
two-line comment block has that block extracted as `c1\nc2`, recorded in the
comments map, and reproduced — lines in the same order, re-indented by the
generator's two spaces — immediately before that variable's generated lookup
line, both at the chunk level and inside the generated entry-point text. -/
theorem c5_theorem (l1 l2 : List HBlock) (b : HBlock) (lines init : List String)
    (c1 c2 : String) (src ver : String) (it : Bool)
    (hv : b.btype = "variable")
    (htake : lines.take (b.startLine - 1) = init ++ [c1, c2])
    (h1t : goTrimSpace c1 = c1) (h1p : goHasPrefix c1 "#" = true)
    (h2t : goTrimSpace c2 = c2) (h2p : goHasPrefix c2 "#" = true)
    (h1n : '\n' ∉ c1.data) (h2n : '\n' ∉ c2.data)
    (hstop : init = [] ∨ ∃ p init0, init = init0 ++ [p] ∧
        goTrimSpace p ≠ "" ∧ goHasPrefix (goTrimSpace p) "#" = false)
    (hu : ∀ b' ∈ l2, b'.btype = "variable" → b'.label ≠ b.label) :
    extractCommentAboveVariable lines (b.startLine - 1) = c1 ++ "\n" ++ c2
      ∧ mapGet (parseVariables (l1 ++ b :: l2) lines).varComments b.label
          = some (c1 ++ "\n" ++ c2)
      ∧ (∃ chs1 chs2, mainTfChunks src ver it (parseVariables (l1 ++ b :: l2) lines).vars
            (parseVariables (l1 ++ b :: l2) lines).varOrder
            (parseVariables (l1 ++ b :: l2) lines).varComments
          = chs1 ++ ["  " ++ c1 ++ "\n", "  " ++ c2 ++ "\n",
              varLineChunk (if it then "each.value" else "local.config") b.label
                (defaultValueOf b)] ++ chs2)
      ∧ ∃ a a', generateMainTf src ver it (parseVariables (l1 ++ b :: l2) lines).vars
            (parseVariables (l1 ++ b :: l2) lines).varOrder
            (parseVariables (l1 ++ b :: l2) lines).varComments
          = a ++ ("  " ++ c1 ++ "\n" ++ ("  " ++ c2 ++ "\n"
              ++ varLineChunk (if it then "each.value" else "local.config") b.label
                (defaultValueOf b))) ++ a' := by
  have hext : extractCommentAboveVariable lines (b.startLine - 1) = c1 ++ "\n" ++ c2 :=
    extractComment_two lines init (b.startLine - 1) c1 c2 htake h1t h1p h2t h2p hstop
  have h1ne : goTrimSpace c1 ≠ "" := by
    rw [h1t]
    exact goHasPrefix_hash_ne_empty h1p
  have h2ne : goTrimSpace c2 ≠ "" := by
    rw [h2t]
    exact goHasPrefix_hash_ne_empty h2p
  have hcne : extractCommentAboveVariable lines (b.startLine - 1) ≠ "" := by
    rw [hext]
    intro e
    have hd := congrArg String.data e
    rw [String.data_append, String.data_append,
      show ("\n" : String).data = ['\n'] from rfl,
      show ("" : String).data = ([] : List Char) from rfl] at hd
    simp at hd
  have hcm : mapGet (parseVariables (l1 ++ b :: l2) lines).varComments b.label
      = some (c1 ++ "\n" ++ c2) := by
    rw [parseVariables_comments_split l1 l2 b lines hv hcne hu, hext]
  have hdv : mapGet (parseVariables (l1 ++ b :: l2) lines).vars b.label
      = some (defaultValueOf b) :=
    parseVariables_vars_split l1 l2 b lines hv hu
  have horder : (parseVariables (l1 ++ b :: l2) lines).varOrder
      = (l1.filter (fun x => x.btype == "variable")).map (fun x => x.label)
        ++ b.label :: (l2.filter (fun x => x.btype == "variable")).map (fun x => x.label) := by
    rw [varOrder_parseVariables, List.filter_append, List.filter_cons]
    simp [hv]
  have hnames : varNamesUsed (parseVariables (l1 ++ b :: l2) lines).vars
      (parseVariables (l1 ++ b :: l2) lines).varOrder
      = (l1.filter (fun x => x.btype == "variable")).map (fun x => x.label)
        ++ b.label :: (l2.filter (fun x => x.btype == "variable")).map (fun x => x.label) := by
    unfold varNamesUsed
    rw [horder, if_pos (by simp)]
  have hentryEq : varEntryChunks (if it then "each.value" else "local.config")
      (parseVariables (l1 ++ b :: l2) lines).vars
      (parseVariables (l1 ++ b :: l2) lines).varComments b.label
      = ["  " ++ c1 ++ "\n", "  " ++ c2 ++ "\n",
          varLineChunk (if it then "each.value" else "local.config") b.label
            (defaultValueOf b)] :=
    varEntry_comment_eq _ _ _ _ _ _ _ hcm hdv h1n h2n h1ne h2ne
  obtain ⟨chs1, chs2, hchunks⟩ := chunks_entry_decomp src ver it
    (parseVariables (l1 ++ b :: l2) lines).vars
    (parseVariables (l1 ++ b :: l2) lines).varComments
    (parseVariables (l1 ++ b :: l2) lines).varOrder _ _ b.label hnames
  rw [hentryEq] at hchunks
  refine ⟨hext, hcm, ⟨chs1, chs2, hchunks⟩, String.join chs1, String.join chs2, ?_⟩
  unfold generateMainTf
  rw [hchunks, strJoin_append, strJoin_append, strJoin_three]

theorem c5_witness :
    (⟨"variable", "x", [], 3⟩ : HBlock).btype = "variable"
      ∧ (["# a", "# b", "variable \"x\" \x7b"] : List String).take
          ((⟨"variable", "x", [], 3⟩ : HBlock).startLine - 1) = [] ++ ["# a", "# b"]
      ∧ goTrimSpace "# a" = "# a" ∧ goHasPrefix "# a" "#" = true
      ∧ goTrimSpace "# b" = "# b" ∧ goHasPrefix "# b" "#" = true
      ∧ '\n' ∉ ("# a" : String).data ∧ '\n' ∉ ("# b" : String).data
      ∧ (([] : List String) = [] ∨ ∃ p init0, ([] : List String) = init0 ++ [p] ∧
          goTrimSpace p ≠ "" ∧ goHasPrefix (goTrimSpace p) "#" = false)
      ∧ (∀ b' ∈ ([] : List HBlock), b'.btype = "variable"
          → b'.label ≠ (⟨"variable", "x", [], 3⟩ : HBlock).label)
      ∧ (extractCommentAboveVariable ["# a", "# b", "variable \"x\" \x7b"]
            ((⟨"variable", "x", [], 3⟩ : HBlock).startLine - 1) = "# a" ++ "\n" ++ "# b"
        ∧ mapGet (parseVariables ([] ++ (⟨"variable", "x", [], 3⟩ : HBlock) :: [])
              ["# a", "# b", "variable \"x\" \x7b"]).varComments
            (⟨"variable", "x", [], 3⟩ : HBlock).label = some ("# a" ++ "\n" ++ "# b")
        ∧ (∃ chs1 chs2, mainTfChunks "s" "" false
              (parseVariables ([] ++ (⟨"variable", "x", [], 3⟩ : HBlock) :: [])
                ["# a", "# b", "variable \"x\" \x7b"]).vars
              (parseVariables ([] ++ (⟨"variable", "x", [], 3⟩ : HBlock) :: [])
                ["# a", "# b", "variable \"x\" \x7b"]).varOrder
              (parseVariables ([] ++ (⟨"variable", "x", [], 3⟩ : HBlock) :: [])
                ["# a", "# b", "variable \"x\" \x7b"]).varComments
            = chs1 ++ ["  " ++ "# a" ++ "\n", "  " ++ "# b" ++ "\n",
                varLineChunk (if false then "each.value" else "local.config")
                  (⟨"variable", "x", [], 3⟩ : HBlock).label
                  (defaultValueOf ⟨"variable", "x", [], 3⟩)] ++ chs2)
        ∧ ∃ a a', generateMainTf "s" "" false
              (parseVariables ([] ++ (⟨"variable", "x", [], 3⟩ : HBlock) :: [])
                ["# a", "# b", "variable \"x\" \x7b"]).vars
              (parseVariables ([] ++ (⟨"variable", "x", [], 3⟩ : HBlock) :: [])
                ["# a", "# b", "variable \"x\" \x7b"]).varOrder
              (parseVariables ([] ++ (⟨"variable", "x", [], 3⟩ : HBlock) :: [])
                ["# a", "# b", "variable \"x\" \x7b"]).varComments
            = a ++ ("  " ++ "# a" ++ "\n" ++ ("  " ++ "# b" ++ "\n"
                ++ varLineChunk (if false then "each.value" else "local.config")
                  (⟨"variable", "x", [], 3⟩ : HBlock).label
                  (defaultValueOf ⟨"variable", "x", [], 3⟩))) ++ a') :=
  ⟨by decide, by decide, by decide, by decide, by decide, by decide, by decide, by decide,
    Or.inl rfl, by intro b' hb'; simp at hb',
    c5_theorem [] [] ⟨"variable", "x", [], 3⟩ ["# a", "# b", "variable \"x\" \x7b"] []
      "# a" "# b" "s" "" false (by decide) (by decide) (by decide) (by decide) (by decide)
      (by decide) (by decide) (by decide) (Or.inl rfl) (by intro b' hb'; simp at hb')⟩

